import Mathlib

/-!
Shallow embedding of the CV-analysis pipeline (src/app.py).

The external collaborators (pdfplumber, docx2txt, the DistilBERT model) are
out of reimplementation scope; they are modelled as opaque inputs:
a PDF document is represented by the list of extracted texts of its pages,
a Word document by its extracted body text, and the classifier by an
arbitrary logits function on strings, with torch.softmax embedded as the
mathematical softmax over the reals.

Scores are carried in an arbitrary linear ordered field K, instantiated at
the reals when the softmax is involved and at the rationals for concrete
executable examples, mirroring the exact arithmetic the spec describes.
-/

namespace CVAnalysis

/-- Embedding of torch.softmax applied to one row of logits (app.py line
31): each entry x is mapped to exp x divided by the sum of the
exponentials of the whole row. -/
noncomputable def softmax (l : List ℝ) : List ℝ :=
  l.map (fun x => Real.exp x / (l.map Real.exp).sum)

/-- Embedding of analyze_cv_text (app.py lines 26-32): the classifier
produces one row of logits for the text, and the function returns the
1-row probability matrix obtained by softmax over that row.  The
tokenizer/model call is the opaque model_logits parameter. -/
noncomputable def analyze_cv_text (model_logits : String → List ℝ)
    (cv_text : String) : List (List ℝ) :=
  [softmax (model_logits cv_text)]

/-- Body of the for-loop of rank_candidates (app.py lines 38-42): one
candidate tuple (cv, total_score, skills_score, experience_score), where
the scores read positions 0 and 1 of row 0 of the probability matrix. -/
def score_candidate {K : Type} [LinearOrderedField K]
    (analyze : String → List (List K)) (cv : String) : String × K × K × K :=
  let cv_scores := analyze cv
  let skills_score := ((cv_scores.getD 0 []).getD 0 0) * 100
  let experience_score := ((cv_scores.getD 0 []).getD 1 0) * 100
  let total_score := (1 / 2 : K) * skills_score + (1 / 2 : K) * experience_score
  (cv, total_score, skills_score, experience_score)

/-- Embedding of rank_candidates (app.py lines 35-43): iterates over
cv_data in order and appends one scored tuple per candidate text. -/
def rank_candidates {K : Type} [LinearOrderedField K]
    (analyze : String → List (List K)) (cv_data : List String) :
    List (String × K × K × K) :=
  cv_data.foldl
    (fun all_candidates cv => all_candidates ++ [score_candidate analyze cv]) []

/-- Embedding of the call max(candidates, key=lambda x: x[1]) at app.py
line 131: CPython max scans left to right and replaces the current best
only on a strictly greater key, so the first maximum wins; on an empty
sequence Python raises ValueError, modelled as none. -/
def best_candidate {K : Type} [LinearOrderedField K]
    (candidates : List (String × K × K × K)) : Option (String × K × K × K) :=
  match candidates with
  | [] => none
  | c :: cs => some (cs.foldl (fun best x => if x.2.1 > best.2.1 then x else best) c)

/-- Embedding of extract_text_from_pdf (app.py lines 14-19): starting from
the empty string, append the text of each page followed by a newline, then
strip the result. -/
def extract_text_from_pdf (pages : List String) : String :=
  (pages.foldl (fun text page => text ++ page ++ "\n") "").trim

/-- An uploaded document: its declared media type together with the opaque
results of the two external parsers on its bytes. -/
structure UploadedFile where
  type : String
  pdf_pages : List String
  word_text : String
deriving DecidableEq

/-- Embedding of extract_text_from_word (app.py lines 22-23):
docx2txt.process is the opaque Word-body extraction, modelled as reading
the word_text field. -/
def extract_text_from_word (f : UploadedFile) : String :=
  f.word_text

/-- The for-loop over uploaded_files (app.py lines 84-88): PDF-typed files
contribute their PDF extraction, DOCX-typed files their Word extraction,
and every other declared type is skipped. -/
def extract_uploaded_cvs (uploaded_files : List UploadedFile) : List String :=
  uploaded_files.foldl
    (fun cvs f =>
      if f.type = "application/pdf" then
        cvs ++ [extract_text_from_pdf f.pdf_pages]
      else if f.type = "application/vnd.openxmlformats-officedocument.wordprocessingml.document" then
        cvs ++ [extract_text_from_word f]
      else cvs) []

/-- The two accepted media types of the upload loop, as a Boolean
predicate (used to state which files contribute a candidate). -/
def accepted_type (f : UploadedFile) : Bool :=
  f.type == "application/pdf" ||
    f.type == "application/vnd.openxmlformats-officedocument.wordprocessingml.document"

/-- The extraction an accepted file receives in the upload loop. -/
def extract_by_type (f : UploadedFile) : String :=
  if f.type = "application/pdf" then extract_text_from_pdf f.pdf_pages
  else extract_text_from_word f

/-- The two pieces of st.session_state the script uses: uploaded_files
(Python None is none) and candidates (an absent key behaves as an empty
list, since the script reads it with .get). -/
structure SessionState where
  uploaded_files : Option (List UploadedFile)
  candidates : List (String × ℚ × ℚ × ℚ)

/-- Embedding of reset_state (app.py lines 46-52): deletes both keys and
re-sets uploaded_files to None and candidates to the empty list. -/
def reset_state (s : SessionState) : SessionState :=
  { s with uploaded_files := none, candidates := [] }

/-- The session state at first load (app.py lines 70-71 set uploaded_files
to None; no candidates are stored). -/
def initial_state : SessionState :=
  { uploaded_files := none, candidates := [] }

/-- The result display (app.py lines 93-138): either the analysis view
with the designated best candidate, or the neutral no-candidates
warning. -/
inductive Display (K : Type) where
  | analysis (candidates : List (String × K × K × K))
      (best : Option (String × K × K × K))
  | no_candidates_warning

/-- Embedding of the branch at app.py lines 93 and 137-138: an empty
candidate list renders the warning; otherwise the analysis view with
best_candidate is rendered. -/
def render {K : Type} [LinearOrderedField K]
    (candidates : List (String × K × K × K)) : Display K :=
  match candidates with
  | [] => Display.no_candidates_warning
  | c :: cs => Display.analysis (c :: cs) (best_candidate (c :: cs))

/-- Modelled from the spec: the page-concatenation that section 4.1
describes for PDF extraction, written as direct recursion (the text of
every page, in page order, each followed by a newline separator); used
only to compare the source foldl against the spec wording. -/
def concat_pages_spec : List String → String
  | [] => ""
  | p :: ps => p ++ "\n" ++ concat_pages_spec ps

/-! ### Helper lemmas -/

theorem rank_candidates_foldl_eq {K : Type} [LinearOrderedField K]
    (analyze : String → List (List K)) (cv_data : List String) :
    ∀ acc : List (String × K × K × K),
      cv_data.foldl (fun all_candidates cv =>
        all_candidates ++ [score_candidate analyze cv]) acc
        = acc ++ cv_data.map (score_candidate analyze) := by
  induction cv_data with
  | nil => intro acc; simp
  | cons cv cvs ih =>
    intro acc
    simp only [List.foldl_cons, List.map_cons]
    rw [ih (acc ++ [score_candidate analyze cv])]
    simp

theorem rank_candidates_eq_map {K : Type} [LinearOrderedField K]
    (analyze : String → List (List K)) (cv_data : List String) :
    rank_candidates analyze cv_data = cv_data.map (score_candidate analyze) := by
  unfold rank_candidates
  rw [rank_candidates_foldl_eq]
  simp

theorem foldl_best_spec {K : Type} [LinearOrderedField K]
    (cs : List (String × K × K × K)) :
    ∀ acc : String × K × K × K,
      (cs.foldl (fun best x => if x.2.1 > best.2.1 then x else best) acc = acc ∧
        ∀ x ∈ cs, x.2.1 ≤ acc.2.1) ∨
      (∃ r cs1 cs2,
        cs.foldl (fun best x => if x.2.1 > best.2.1 then x else best) acc = r ∧
        cs = cs1 ++ r :: cs2 ∧ acc.2.1 < r.2.1 ∧
        (∀ x ∈ cs1, x.2.1 < r.2.1) ∧ (∀ x ∈ cs2, x.2.1 ≤ r.2.1)) := by
  induction cs with
  | nil =>
    intro acc
    left
    exact ⟨rfl, by simp⟩
  | cons x xs ih =>
    intro acc
    simp only [List.foldl_cons]
    by_cases hx : x.2.1 > acc.2.1
    · rw [if_pos hx]
      rcases ih x with ⟨heq, hall⟩ | ⟨r, xs1, xs2, heq, hsplit, hlt, h1, h2⟩
      · right
        refine ⟨x, [], xs, heq, by simp, hx, by simp, hall⟩
      · right
        refine ⟨r, x :: xs1, xs2, heq, by simp [hsplit], lt_trans hx hlt, ?_, h2⟩
        intro y hy
        rcases List.mem_cons.mp hy with rfl | hy
        · exact hlt
        · exact h1 y hy
    · rw [if_neg hx]
      have hx' : x.2.1 ≤ acc.2.1 := not_lt.mp hx
      rcases ih acc with ⟨heq, hall⟩ | ⟨r, xs1, xs2, heq, hsplit, hlt, h1, h2⟩
      · left
        refine ⟨heq, ?_⟩
        intro y hy
        rcases List.mem_cons.mp hy with rfl | hy
        · exact hx'
        · exact hall y hy
      · right
        refine ⟨r, x :: xs1, xs2, heq, by simp [hsplit], hlt, ?_, h2⟩
        intro y hy
        rcases List.mem_cons.mp hy with rfl | hy
        · exact lt_of_le_of_lt hx' hlt
        · exact h1 y hy

/-! ### Claim theorems -/

/-- C1: for every candidate produced by rank_candidates, the total score
is 0.5 * skillsScore + 0.5 * experienceScore, which is exactly the
average of the skills score and the experience score. -/
theorem total_score_is_average {K : Type} [LinearOrderedField K]
    (analyze : String → List (List K)) (cv_data : List String)
    (r : String × K × K × K) (hr : r ∈ rank_candidates analyze cv_data) :
    r.2.1 = (1 / 2 : K) * r.2.2.1 + (1 / 2 : K) * r.2.2.2 ∧
      r.2.1 = (r.2.2.1 + r.2.2.2) / 2 := by
  rw [rank_candidates_eq_map] at hr
  rcases List.mem_map.mp hr with ⟨cv, _, rfl⟩
  constructor
  · rfl
  · show (1 / 2 : K) * _ + (1 / 2 : K) * _ = _
    simp only [score_candidate]
    ring

/-- C1 witness: the theorem applied to a concrete scorer and candidate. -/
theorem total_score_is_average_witness :
    ((("cv1" : String), (0 : ℚ), 0, 0) ∈
      rank_candidates (fun _ => [[(0 : ℚ), 0, 0, 0, 0]]) ["cv1"]) ∧
    ((0 : ℚ) = (1 / 2 : ℚ) * 0 + (1 / 2 : ℚ) * 0 ∧ (0 : ℚ) = (0 + 0) / 2) :=
  ⟨by simp [rank_candidates, score_candidate],
   total_score_is_average (fun _ => [[(0 : ℚ), 0, 0, 0, 0]]) ["cv1"]
     (("cv1" : String), (0 : ℚ), 0, 0) (by simp [rank_candidates, score_candidate])⟩

/-- C2: on any non-empty candidate list, best_candidate returns an element
whose total score bounds every total score in the list, and everything
strictly before it in input order has a strictly smaller total score (the
first maximum wins); in particular, on total scores
[72.50, 88.10, 88.10] the candidate at index 1 is selected. -/
theorem best_candidate_first_max :
    (∀ (K : Type) (_ : LinearOrderedField K)
        (c : String × K × K × K) (cs : List (String × K × K × K)),
      ∃ r l1 l2,
        best_candidate (c :: cs) = some r ∧
        c :: cs = l1 ++ r :: l2 ∧
        (∀ x ∈ l1, x.2.1 < r.2.1) ∧
        (∀ x ∈ c :: cs, x.2.1 ≤ r.2.1)) ∧
    best_candidate
        [(("a" : String), (72.5 : ℚ), 0, 0), ("b", 88.1, 0, 0), ("c", 88.1, 0, 0)]
      = some ("b", (88.1 : ℚ), 0, 0) := by
  constructor
  · intro K instK c cs
    rcases foldl_best_spec cs c with ⟨heq, hall⟩ | ⟨r, cs1, cs2, heq, hsplit, hlt, h1, h2⟩
    · refine ⟨c, [], cs, ?_, by simp, by simp, ?_⟩
      · show some _ = some c
        rw [heq]
      · intro x hx
        rcases List.mem_cons.mp hx with rfl | hx
        · exact le_refl _
        · exact hall x hx
    · refine ⟨r, c :: cs1, cs2, ?_, by simp [hsplit], ?_, ?_⟩
      · show some _ = some r
        rw [heq]
      · intro x hx
        rcases List.mem_cons.mp hx with rfl | hx
        · exact hlt
        · exact h1 x hx
      · intro x hx
        rcases List.mem_cons.mp hx with rfl | hx
        · exact le_of_lt hlt
        · rw [hsplit] at hx
          rcases List.mem_append.mp hx with hx | hx
          · exact le_of_lt (h1 x hx)
          · rcases List.mem_cons.mp hx with rfl | hx
            · exact le_refl _
            · exact h2 x hx
  · norm_num [best_candidate]

/-- C3: ranking an empty candidate-text list returns the empty list (the
explicit no-candidate signal) without any fault, best_candidate of an
empty list is none rather than a crash, and the presentation renders the
neutral no-candidates warning. -/
theorem empty_input_no_candidates :
    (∀ (K : Type) (_ : LinearOrderedField K) (analyze : String → List (List K)),
      rank_candidates analyze [] = []) ∧
    best_candidate ([] : List (String × ℚ × ℚ × ℚ)) = none ∧
    render ([] : List (String × ℚ × ℚ × ℚ)) = Display.no_candidates_warning := by
  refine ⟨fun K _ analyze => rfl, rfl, rfl⟩

/-- C7: after reset_state, regardless of the prior state, the
uploaded-file slot is None and the candidate list is empty: exactly the
initial empty state. -/
theorem reset_state_clears (s : SessionState) :
    (reset_state s).uploaded_files = none ∧ (reset_state s).candidates = [] ∧
      reset_state s = initial_state := by
  refine ⟨rfl, rfl, rfl⟩

/-- C8: the ranking step preserves input order: for every index i, the
i-th element of the output of rank_candidates is the scored tuple of the
i-th input text (and indices past the end are absent on both sides). -/
theorem ranking_preserves_order {K : Type} [LinearOrderedField K]
    (analyze : String → List (List K)) (cv_data : List String) (i : ℕ) :
    (rank_candidates analyze cv_data)[i]?
      = (cv_data[i]?).map (score_candidate analyze) := by
  rw [rank_candidates_eq_map, List.getElem?_map]

/-- C9: ranking is deterministic: with the same input order and the same
per-candidate scores (pointwise equal scorers), rank_candidates and the
best-candidate selection produce identical results. -/
theorem ranking_deterministic {K : Type} [LinearOrderedField K]
    (analyze1 analyze2 : String → List (List K)) (cv_data : List String)
    (h : ∀ cv, analyze1 cv = analyze2 cv) :
    rank_candidates analyze1 cv_data = rank_candidates analyze2 cv_data ∧
      best_candidate (rank_candidates analyze1 cv_data)
        = best_candidate (rank_candidates analyze2 cv_data) := by
  have heq : analyze1 = analyze2 := funext h
  subst heq
  exact ⟨rfl, rfl⟩

/-- C9 witness: the theorem applied to two (syntactically identical)
concrete scorers. -/
theorem ranking_deterministic_witness :
    (∀ cv : String,
      (fun _ : String => [[(1 : ℚ), 0, 0, 0, 0]]) cv
        = (fun _ : String => [[(1 : ℚ), 0, 0, 0, 0]]) cv) ∧
    (rank_candidates (fun _ : String => [[(1 : ℚ), 0, 0, 0, 0]]) ["a", "b"]
        = rank_candidates (fun _ : String => [[(1 : ℚ), 0, 0, 0, 0]]) ["a", "b"] ∧
      best_candidate (rank_candidates (fun _ : String => [[(1 : ℚ), 0, 0, 0, 0]]) ["a", "b"])
        = best_candidate (rank_candidates (fun _ : String => [[(1 : ℚ), 0, 0, 0, 0]]) ["a", "b"])) :=
  ⟨fun _ => rfl,
   ranking_deterministic (fun _ => [[(1 : ℚ), 0, 0, 0, 0]])
     (fun _ => [[(1 : ℚ), 0, 0, 0, 0]]) ["a", "b"] (fun _ => rfl)⟩

/-- C10: rank_candidates returns exactly one result per input text, and
the first component of the i-th result is the unmodified i-th input
text. -/
theorem ranking_length_and_text {K : Type} [LinearOrderedField K]
    (analyze : String → List (List K)) (cv_data : List String) :
    (rank_candidates analyze cv_data).length = cv_data.length ∧
      ∀ i : ℕ,
        ((rank_candidates analyze cv_data)[i]?).map (fun r => r.1) = cv_data[i]? := by
  rw [rank_candidates_eq_map]
  refine ⟨List.length_map _ _, fun i => ?_⟩
  rw [List.getElem?_map, Option.map_map]
  have hcomp : ((fun r : String × K × K × K => r.1) ∘ score_candidate analyze) = id :=
    funext fun cv => rfl
  rw [hcomp, Option.map_id]
  rfl


/-! ### Upload-loop filtering (C4) -/

theorem extract_uploaded_cvs_foldl (fs : List UploadedFile) :
    ∀ acc : List String,
      fs.foldl (fun cvs f =>
        if f.type = "application/pdf" then
          cvs ++ [extract_text_from_pdf f.pdf_pages]
        else if f.type = "application/vnd.openxmlformats-officedocument.wordprocessingml.document" then
          cvs ++ [extract_text_from_word f]
        else cvs) acc
      = acc ++ (fs.filter accepted_type).map extract_by_type := by
  induction fs with
  | nil => intro acc; simp
  | cons f fs ih =>
    intro acc
    simp only [List.foldl_cons]
    by_cases h1 : f.type = "application/pdf"
    · rw [if_pos h1, ih]
      have ha : accepted_type f = true := by simp [accepted_type, h1]
      simp [List.filter_cons, ha, extract_by_type, h1]
    · rw [if_neg h1]
      by_cases h2 : f.type = "application/vnd.openxmlformats-officedocument.wordprocessingml.document"
      · rw [if_pos h2, ih]
        have ha : accepted_type f = true := by simp [accepted_type, h2]
        simp [List.filter_cons, ha, extract_by_type, h1, h2]
      · rw [if_neg h2, ih]
        have ha : accepted_type f = false := by
          simp [accepted_type, h1, h2]
        simp [List.filter_cons, ha]

theorem extract_uploaded_cvs_eq (fs : List UploadedFile) :
    extract_uploaded_cvs fs = (fs.filter accepted_type).map extract_by_type := by
  unfold extract_uploaded_cvs
  rw [extract_uploaded_cvs_foldl]
  simp

/-- C4: the upload loop contributes one candidate per file whose declared
type is application/pdf or the DOCX media type, keeping upload order, and
every other declared type is excluded; the loop is a total function of the
uploads, so no error reaches the caller. -/
theorem unsupported_types_excluded (uploaded_files : List UploadedFile) :
    extract_uploaded_cvs uploaded_files
      = (uploaded_files.filter accepted_type).map extract_by_type ∧
    (extract_uploaded_cvs uploaded_files).length
      = (uploaded_files.filter accepted_type).length := by
  refine ⟨extract_uploaded_cvs_eq uploaded_files, ?_⟩
  rw [extract_uploaded_cvs_eq]
  simp

/-! ### PDF extraction (C5) -/

theorem pdf_foldl_concat (pages : List String) :
    ∀ acc : String,
      pages.foldl (fun text page => text ++ page ++ "\n") acc
        = acc ++ concat_pages_spec pages := by
  induction pages with
  | nil => intro acc; simp [concat_pages_spec]
  | cons p ps ih =>
    intro acc
    simp only [List.foldl_cons, concat_pages_spec]
    rw [ih]
    simp [String.append_assoc]

/-- C5: extract_text_from_pdf returns exactly the page texts concatenated
in page order, each followed by a newline separator, with leading and
trailing whitespace trimmed from the final result; it is a pure function
of the page texts, so extraction has no side effects. -/
theorem pdf_extraction_concat_trim (pages : List String) :
    extract_text_from_pdf pages = (concat_pages_spec pages).trim := by
  unfold extract_text_from_pdf
  rw [pdf_foldl_concat]
  simp

/-! ### Softmax score vectors (C6) -/

theorem softmax_length (l : List ℝ) : (softmax l).length = l.length := by
  simp [softmax]

theorem sum_map_exp_pos (l : List ℝ) (h : l ≠ []) : 0 < (l.map Real.exp).sum := by
  refine List.sum_pos _ ?_ (by simpa using h)
  intro x hx
  rcases List.mem_map.mp hx with ⟨y, _, rfl⟩
  exact Real.exp_pos y

theorem softmax_sum_eq_one (l : List ℝ) (h : l ≠ []) : (softmax l).sum = 1 := by
  have hS : 0 < (l.map Real.exp).sum := sum_map_exp_pos l h
  unfold softmax
  have hfun : (fun x => Real.exp x / (l.map Real.exp).sum)
      = fun x => Real.exp x * ((l.map Real.exp).sum)⁻¹ :=
    funext fun x => div_eq_mul_inv _ _
  rw [hfun, List.sum_map_mul_right, mul_inv_cancel₀ (ne_of_gt hS)]

theorem softmax_mem_unit (l : List ℝ) (p : ℝ) (hp : p ∈ softmax l) :
    0 ≤ p ∧ p ≤ 1 := by
  rcases List.mem_map.mp hp with ⟨x, hx, rfl⟩
  have hne : l ≠ [] := by
    intro e
    rw [e] at hx
    exact absurd hx (List.not_mem_nil x)
  have hS : 0 < (l.map Real.exp).sum := sum_map_exp_pos l hne
  constructor
  · exact div_nonneg (Real.exp_pos x).le hS.le
  · rw [div_le_one hS]
    refine List.single_le_sum ?_ _ (List.mem_map_of_mem Real.exp hx)
    intro y hy
    rcases List.mem_map.mp hy with ⟨z, _, rfl⟩
    exact (Real.exp_pos z).le

theorem getD_mem_of_lt {α : Type} (l : List α) (n : ℕ) (d : α)
    (h : n < l.length) : l.getD n d ∈ l := by
  rw [List.getD_eq_getElem l d h]
  exact List.getElem_mem h

/-- C6: every ScoreVector produced by the scorer has five components, each
lying in [0,1], and they sum exactly to 1; consequently every candidate
result has its skills, experience and total scores in [0,100]. -/
theorem score_vector_normalized (model_logits : String → List ℝ)
    (hlen : ∀ cv, (model_logits cv).length = 5) (cv_data : List String) :
    (∀ cv, ((analyze_cv_text model_logits cv).getD 0 []).length = 5 ∧
      ((analyze_cv_text model_logits cv).getD 0 []).sum = 1 ∧
      ∀ p ∈ (analyze_cv_text model_logits cv).getD 0 [], 0 ≤ p ∧ p ≤ 1) ∧
    ∀ r ∈ rank_candidates (analyze_cv_text model_logits) cv_data,
      (0 ≤ r.2.2.1 ∧ r.2.2.1 ≤ 100) ∧ (0 ≤ r.2.2.2 ∧ r.2.2.2 ≤ 100) ∧
        0 ≤ r.2.1 ∧ r.2.1 ≤ 100 := by
  have hrow : ∀ cv, (analyze_cv_text model_logits cv).getD 0 []
      = softmax (model_logits cv) := fun cv => rfl
  have hne : ∀ cv, model_logits cv ≠ [] := by
    intro cv e
    have h5 := hlen cv
    rw [e] at h5
    simp at h5
  constructor
  · intro cv
    rw [hrow]
    exact ⟨by rw [softmax_length, hlen], softmax_sum_eq_one _ (hne cv),
      fun p hp => softmax_mem_unit _ p hp⟩
  · intro r hr
    rw [rank_candidates_eq_map] at hr
    rcases List.mem_map.mp hr with ⟨cv, _, rfl⟩
    have hs5 : (softmax (model_logits cv)).length = 5 := by
      rw [softmax_length, hlen]
    have hm0 : (softmax (model_logits cv)).getD 0 0 ∈ softmax (model_logits cv) :=
      getD_mem_of_lt _ 0 0 (by rw [hs5]; norm_num)
    have hm1 : (softmax (model_logits cv)).getD 1 0 ∈ softmax (model_logits cv) :=
      getD_mem_of_lt _ 1 0 (by rw [hs5]; norm_num)
    have hb0 := softmax_mem_unit _ _ hm0
    have hb1 := softmax_mem_unit _ _ hm1
    have e1 : (score_candidate (analyze_cv_text model_logits) cv).2.2.1
        = (softmax (model_logits cv)).getD 0 0 * 100 := rfl
    have e2 : (score_candidate (analyze_cv_text model_logits) cv).2.2.2
        = (softmax (model_logits cv)).getD 1 0 * 100 := rfl
    have e3 : (score_candidate (analyze_cv_text model_logits) cv).2.1
        = (1 / 2 : ℝ) * ((softmax (model_logits cv)).getD 0 0 * 100)
          + (1 / 2 : ℝ) * ((softmax (model_logits cv)).getD 1 0 * 100) := rfl
    rw [e1, e2, e3]
    refine ⟨⟨?_, ?_⟩, ⟨?_, ?_⟩, ?_, ?_⟩ <;> linarith [hb0.1, hb0.2, hb1.1, hb1.2]

/-- C6 witness: the theorem applied to the constant classifier with five
zero logits and a single candidate text. -/
theorem score_vector_normalized_witness :
    (∀ cv : String, ((fun _ : String => [(0 : ℝ), 0, 0, 0, 0]) cv).length = 5) ∧
    ((∀ cv, ((analyze_cv_text (fun _ : String => [(0 : ℝ), 0, 0, 0, 0]) cv).getD 0 []).length = 5 ∧
        ((analyze_cv_text (fun _ : String => [(0 : ℝ), 0, 0, 0, 0]) cv).getD 0 []).sum = 1 ∧
        ∀ p ∈ (analyze_cv_text (fun _ : String => [(0 : ℝ), 0, 0, 0, 0]) cv).getD 0 [],
          0 ≤ p ∧ p ≤ 1) ∧
      ∀ r ∈ rank_candidates (analyze_cv_text (fun _ : String => [(0 : ℝ), 0, 0, 0, 0])) ["a"],
        (0 ≤ r.2.2.1 ∧ r.2.2.1 ≤ 100) ∧ (0 ≤ r.2.2.2 ∧ r.2.2.2 ≤ 100) ∧
          0 ≤ r.2.1 ∧ r.2.1 ≤ 100) :=
  ⟨fun _ => rfl,
   score_vector_normalized (fun _ => [(0 : ℝ), 0, 0, 0, 0]) (fun _ => rfl) ["a"]⟩

end CVAnalysis
